import Mathlib

/-!
Shallow embedding of the LitXplore backend (FastAPI/Python) for verification
of its natural-language specification.  The definitions below are translated
from the Python sources under src/backend/app; theorems about them follow at
the end of the file.
-/

namespace LitXplore

/-! ## Python exception model

Python distinguishes `Exception` subclasses (caught by an `except Exception`
handler) from other `BaseException` descendants such as `KeyboardInterrupt`
and `asyncio.CancelledError` (Python >= 3.8), which such a handler does not
catch.  `json.JSONDecodeError` and `pydantic.ValidationError` are the two
concrete classes matched by the inner handler of `invoke_llm_with_retry`.
-/

inductive PyExc where
  | jsonDecode (msg : String)
  | validationError (msg : String)
  | exc (msg : String)
  | baseExc (msg : String)
deriving DecidableEq, Repr

/-- True for exceptions deriving from `Exception` (matched by
`except Exception`); false for bare `BaseException` descendants. -/
def PyExc.isExceptionClass : PyExc → Bool
  | .jsonDecode _ => true
  | .validationError _ => true
  | .exc _ => true
  | .baseExc _ => false

/-- True for the classes matched by `except (json.JSONDecodeError,
ValidationError)`. -/
def PyExc.isParseErrorClass : PyExc → Bool
  | .jsonDecode _ => true
  | .validationError _ => true
  | _ => false

/-- Rendering `str(e)` of an exception. -/
def PyExc.message : PyExc → String
  | .jsonDecode m => m
  | .validationError m => m
  | .exc m => m
  | .baseExc m => m

/-! ## Task data model

Modelled from the spec: `app/models/task.py` is not among the provided
sources; the `Task` row and `TaskStatus` enum are reconstructed from the
spec's data model ("identifier, owning user, status (one of PENDING,
RUNNING, COMPLETED, FAILED), optional error message, optional result
payload") and from the fields used by `task_service.py`.
-/

inductive TaskStatus where
  | pending
  | running
  | completed
  | failed
deriving DecidableEq, Repr

/-- True for the two terminal statuses. -/
def TaskStatus.isTerminal : TaskStatus → Bool
  | .completed => true
  | .failed => true
  | _ => false

/-- Result payload stored by `_execute_review_generation` on success:
review text, serialized citations and the input topic. -/
structure ResultData where
  review : String
  citations : List (String × String × String)
  topic : String
deriving DecidableEq, Repr

/-- Task row (modelled from the spec, see section comment). -/
structure Task where
  id : String
  userId : Nat
  status : TaskStatus
  errorMessage : Option String
  resultData : Option ResultData
deriving DecidableEq, Repr

/-! ## TaskService.cancel_task (src/backend/app/services/task_service.py)

The service state holds the persisted task rows, the process-wide tracking
table `_running_tasks` (represented by the tracked task ids) and, for the
model, the set of background jobs to which a cooperative cancellation signal
has been delivered via `background_task.cancel()`.
-/

structure ServiceState where
  tasks : List Task
  runningTasks : List String
  cancelledJobs : List String
deriving DecidableEq, Repr

/-- Embedding of
`db.query(Task).filter(Task.id == task_id, Task.user_id == user.id).first()`. -/
def findTask (tasks : List Task) (taskId : String) (userId : Nat) : Option Task :=
  tasks.find? (fun t => t.id == taskId && t.userId == userId)

/-- Update the first row matched by the id/user filter (the ORM mutates the
object returned by `.first()`). -/
def updateFirstTask (tasks : List Task) (taskId : String) (userId : Nat)
    (f : Task → Task) : List Task :=
  match tasks with
  | [] => []
  | t :: ts =>
    if t.id == taskId && t.userId == userId then f t :: ts
    else t :: updateFirstTask ts taskId userId f

/-- Embedding of `TaskService.cancel_task`.  Returns the boolean result and
the successor state. -/
def cancelTask (st : ServiceState) (taskId : String) (userId : Nat) :
    Bool × ServiceState :=
  match findTask st.tasks taskId userId with
  | none => (false, st)
  | some task =>
    if task.status == .pending || task.status == .running then
      -- `self._running_tasks.pop(task_id, None)`: dictionary keys are
      -- unique, so removal removes the key outright
      let st1 :=
        if taskId ∈ st.runningTasks then
          { st with
            runningTasks := st.runningTasks.filter (fun k => k != taskId)
            cancelledJobs := taskId :: st.cancelledJobs }
        else st
      let tasks1 := updateFirstTask st1.tasks taskId userId (fun t =>
        { t with status := .failed, errorMessage := some "Task cancelled by user" })
      (true, { st1 with tasks := tasks1 })
    else (false, st)

/-! ## invoke_llm_with_retry (src/backend/app/services/analysis_helpers.py)

The LLM and the response parser are the function's collaborators; they are
modelled as oracles.  `invoke i` is the outcome of `llm.invoke(prompt)`
followed by `response.content.strip()` on the i-th loop iteration (0-based);
`parser` is the `response_parser` argument.  The returned `Nat` instruments
the model with the number of loop iterations that were actually executed;
the Python function itself returns only the value.
-/

def invokeLoop {T : Type} (invoke : Nat → Except PyExc String)
    (parser : String → Except PyExc T) (fallback : T)
    (maxRetries : Nat) (attempt : Nat) : Nat → Except PyExc T × Nat
  | 0 =>
    -- the loop has run out of iterations: the trailing `return fallback`
    (.ok fallback, 0)
  | fuel + 1 =>
    match invoke attempt with
    | .error e =>
      -- outer handler: `except Exception as e`
      if e.isExceptionClass then
        if attempt < maxRetries - 1 then
          let r := invokeLoop invoke parser fallback maxRetries (attempt + 1) fuel
          (r.1, r.2 + 1)
        else (.ok fallback, 1)
      else (.error e, 1)
    | .ok s =>
      match parser s with
      | .ok v => (.ok v, 1)
      | .error e =>
        -- inner handler: `except (json.JSONDecodeError, ValidationError)`
        if e.isParseErrorClass then
          if attempt < maxRetries - 1 then
            let r := invokeLoop invoke parser fallback maxRetries (attempt + 1) fuel
            (r.1, r.2 + 1)
          else (.ok fallback, 1)
        else
          -- any other exception from the parser reaches the outer handler
          if e.isExceptionClass then
            if attempt < maxRetries - 1 then
              let r := invokeLoop invoke parser fallback maxRetries (attempt + 1) fuel
              (r.1, r.2 + 1)
            else (.ok fallback, 1)
          else (.error e, 1)

/-- Embedding of `invoke_llm_with_retry` (the Python default for
`max_retries` is 2).  The `for attempt in range(max_retries)` loop is
`invokeLoop` started at attempt 0 with `maxRetries` remaining iterations.
First component: the returned value, or the propagated exception; second
component: number of attempts performed. -/
def invokeLlmWithRetry {T : Type} (invoke : Nat → Except PyExc String)
    (parser : String → Except PyExc T) (fallback : T)
    (maxRetries : Nat := 2) : Except PyExc T × Nat :=
  invokeLoop invoke parser fallback maxRetries 0 maxRetries

/-- One loop iteration of `invoke_llm_with_retry` fails: the invocation
raises an `Exception`-class error, or it succeeds and the parser raises an
`Exception`-class error. -/
def attemptFails {T : Type} (invoke : Nat → Except PyExc String)
    (parser : String → Except PyExc T) (i : Nat) : Prop :=
  match invoke i with
  | .error e => e.isExceptionClass = true
  | .ok s => ∃ e, parser s = .error e ∧ e.isExceptionClass = true

/-! ## extract_upload_hash (src/backend/app/utils/input_validation.py)

`UPLOAD_ID_PATTERN = re.compile(r"^upload_([0-9a-fA-F]{10})$")` and
`UPLOAD_ID_PATTERN.match(paper_id)`.  Python `re` semantics: `match` anchors
at the start of the string, and without `re.MULTILINE` the `$` anchor
matches at the end of the string or just before a single newline at the end
of the string.  The character class accepts hexadecimal digits of either
case; the extracted group is lowercased by `.lower()`.
-/

/-- The `[0-9a-fA-F]` character class. -/
def isHexChar (c : Char) : Bool :=
  c.isDigit || ('a' ≤ c && c ≤ 'f') || ('A' ≤ c && c ≤ 'F')

/-- A lowercase hexadecimal digit, `[0-9a-f]`: the alphabet of extracted
content hashes after `.lower()`. -/
def isLowerHexChar (c : Char) : Bool :=
  c.isDigit || ('a' ≤ c && c ≤ 'f')

/-- Match `upload_([0-9a-fA-F]{10})` against the whole character list,
returning the captured group: the literal prefix followed by exactly ten
characters of the class. -/
def matchUploadCore (cs : List Char) : Option (List Char) :=
  if cs.take 7 == "upload_".data then
    if (cs.drop 7).length == 10 && (cs.drop 7).all isHexChar then
      some (cs.drop 7)
    else none
  else none

/-- Match the anchored pattern `^upload_([0-9a-fA-F]{10})$`, where `$` also
matches just before a single trailing newline. -/
def matchUploadId (cs : List Char) : Option (List Char) :=
  match matchUploadCore cs with
  | some h => some h
  | none =>
    if cs.getLast? == some '\n' then matchUploadCore cs.dropLast else none

/-- Embedding of `extract_upload_hash`. -/
def extractUploadHash (paperId : String) : Option String :=
  if paperId.isEmpty then none
  else (matchUploadId paperId.data).map (fun h => String.mk (h.map Char.toLower))

/-! ## cleanup_uploaded_pdfs (src/backend/app/utils/file_utils.py)

The filesystem is modelled as the list of existing paths; `removeFault p`
says whether `os.remove(p)` raises (e.g. a `PermissionError`) when invoked.
The whole `for` loop sits inside one `try`, so the first raising `os.remove`
aborts the remaining iterations; the handler swallows the exception and the
function returns its constant status dict in every case.
-/

/-- The path `os.path.join("uploads", content_hash + ".pdf")`. -/
def uploadPath (contentHash : String) : String :=
  "uploads/" ++ contentHash ++ ".pdf"

/-- Body of the `for` loop of `cleanup_uploaded_pdfs`: returns the
filesystem after the loop together with the exception that escaped it, if
any. -/
def cleanupLoop (removeFault : String → Bool) :
    List String → List String → List String × Option PyExc
  | [], fs => (fs, none)
  | paperId :: rest, fs =>
    match extractUploadHash paperId with
    | none => cleanupLoop removeFault rest fs
    | some contentHash =>
      let pdfPath := uploadPath contentHash
      if pdfPath ∈ fs then
        if removeFault pdfPath then (fs, some (.exc "remove failed"))
        else
          -- paths in a filesystem are unique; `os.remove` removes the path
          cleanupLoop removeFault rest (fs.filter (fun q => q != pdfPath))
      else cleanupLoop removeFault rest fs

/-- Embedding of `cleanup_uploaded_pdfs`: the loop's exception, if any, is
caught and logged; the function always returns the status dict, modelled by
the constant string it carries. -/
def cleanupUploadedPdfs (removeFault : String → Bool)
    (paperIds : List String) (fs : List String) : List String × String :=
  let r := cleanupLoop removeFault paperIds fs
  (r.1, "completed")

/-! ## Paper metadata and result serialization

Modelled from the spec: `app/models/paper.py` is not among the provided
sources.  The spec's data model gives "Paper Metadata: identifier, title,
author list, summary, publication date, source URL".  The publication date
is a Python `datetime`; `_execute_review_generation` converts it with
`.isoformat()` before storing the result.
-/

/-- Naive `datetime.datetime` with second precision. -/
structure PyDateTime where
  year : Nat
  month : Nat
  day : Nat
  hour : Nat
  minute : Nat
  second : Nat
deriving DecidableEq, Repr

/-- Zero-pad a numeral to the given width. -/
def padNum (width : Nat) (n : Nat) : String :=
  let s := toString n
  String.mk (List.replicate (width - s.length) '0') ++ s

/-- Embedding of `datetime.isoformat()` for a naive datetime with zero
microseconds. -/
def PyDateTime.isoformat (d : PyDateTime) : String :=
  padNum 4 d.year ++ "-" ++ padNum 2 d.month ++ "-" ++ padNum 2 d.day ++ "T" ++
    padNum 2 d.hour ++ ":" ++ padNum 2 d.minute ++ ":" ++ padNum 2 d.second

/-- Paper metadata (modelled from the spec, see section comment). -/
structure Paper where
  id : String
  title : String
  authors : List String
  summary : String
  published : PyDateTime
  url : String
deriving DecidableEq, Repr

/-- Serialized citation entry: `paper.model_dump()` with the `published`
datetime rendered by `.isoformat()`.  The triple keeps the fields the
claims inspect: id, title and serialized publication date. -/
def serializeCitation (p : Paper) : String × String × String :=
  (p.id, p.title, p.published.isoformat)

/-! ## TaskService._execute_review_generation, sequential run
(src/backend/app/services/task_service.py)

The collaborators are modelled as oracles: `arxivFetch` is
`paper_service.get_papers_by_ids`, `uploadedFetch` is
`paper_service.get_uploaded_papers`, `generateReview` is
`langchain_service.generate_review`; each may raise.  The database is
modelled as reliable here (commit failures of the error path appear in the
interleaving model below).  The function returns the final task row and the
filesystem left by the `finally` cleanup.
-/

structure PipelineEnv where
  arxivFetch : List String → Except PyExc (List Paper)
  uploadedFetch : List String → Except PyExc (List Paper)
  generateReview : List Paper → String → Except PyExc String
  removeFault : String → Bool

/-- The partition test `pid.startswith('upload_')`. -/
def startsWithUpload (s : String) : Bool :=
  s.data.take 7 == "upload_".data

/-- Body of the `try` block: either the completed task row or the exception
that escaped.  `await`ed fetches that raise propagate; a fetch on an empty
identifier group is skipped (`if arxiv_ids:` / `if uploaded_ids:`),
contributing no papers. -/
def pipelineBody (env : PipelineEnv) (task : Task) (paperIds : List String)
    (topic : String) (maxPapers : Nat) : Except PyExc Task :=
  match
    if (paperIds.filter (fun pid => !(startsWithUpload pid))).isEmpty then .ok []
    else env.arxivFetch (paperIds.filter (fun pid => !(startsWithUpload pid)))
  with
  | .error e => .error e
  | .ok arxivPapers =>
    match
      if (paperIds.filter (fun pid => startsWithUpload pid)).isEmpty then .ok []
      else env.uploadedFetch (paperIds.filter (fun pid => startsWithUpload pid))
    with
    | .error e => .error e
    | .ok uploadedPapers =>
      let papers := arxivPapers ++ uploadedPapers
      if papers.isEmpty then
        .error (.exc "No papers found for the given IDs")
      else
        let papers2 :=
          if papers.length > maxPapers then papers.take maxPapers else papers
        match env.generateReview papers2 topic with
        | .error e => .error e
        | .ok review =>
          .ok { task with
                status := .completed
                resultData := some
                  { review := review
                    citations := papers2.map serializeCitation
                    topic := topic } }

/-- Embedding of `_execute_review_generation` run to completion with no
cancellation: sets RUNNING, runs the pipeline, handles an `Exception` by
recording FAILED with `str(e)` (a bare `BaseException` is not caught and
leaves the row RUNNING), and in all cases runs the `finally` cleanup. -/
def executeReviewGeneration (env : PipelineEnv) (task : Task)
    (paperIds : List String) (topic : String) (maxPapers : Nat)
    (fs : List String) : Task × List String :=
  let task1 := { task with status := .running }
  let task2 :=
    match pipelineBody env task1 paperIds topic maxPapers with
    | .ok t => t
    | .error e =>
      if e.isExceptionClass then
        { task1 with status := .failed, errorMessage := some e.message }
      else task1
  let cleaned := cleanupUploadedPdfs env.removeFault paperIds fs
  (task2, cleaned.1)

/-! ## JWKS cache and signing-key resolution (src/backend/app/core/auth.py)

Key material is opaque (`RSAAlgorithm.from_jwk` is modelled as returning the
key's material string).  The cache state is the currently valid cached key
set, or `none` when the cache is empty or past its TTL (`JWKSCache.get`
returns `None` in exactly those cases).  The provider's JWKS endpoint is
modelled as a fixed key set and a successful fetch; a fetch failure takes
the separate `raise_internal_error` path, which claim-relevant runs do not
enter.  The `Nat` component counts provider fetches.
-/

structure JWK where
  kid : String
  key : String
deriving DecidableEq, Repr

/-- Error raised by `raise_auth_error`: HTTP 401 and an error code. -/
structure AuthError where
  statusCode : Nat
  errorCode : String
deriving DecidableEq, Repr

/-- Embedding of `find_key_in_jwks`. -/
def findKeyInJwks (jwks : List JWK) (kid : String) : Option String :=
  (jwks.find? (fun j => j.kid == kid)).map (fun j => j.key)

/-- Embedding of `get_jwks`: returns the key set used, the successor cache
state and the number of provider fetches performed. -/
def getJwks (provider : List JWK) (cache : Option (List JWK))
    (forceRefresh : Bool) : List JWK × Option (List JWK) × Nat :=
  if !forceRefresh then
    match cache with
    | some cached => (cached, some cached, 0)
    | none => (provider, some provider, 1)
  else (provider, some provider, 1)

/-- Embedding of `get_signing_key`: cached lookup, then at most one forced
refresh, then `raise_auth_error` with `ErrorCode.JWKS_ERROR`. -/
def getSigningKey (provider : List JWK) (cache : Option (List JWK))
    (kid : String) : Except AuthError String × Option (List JWK) × Nat :=
  let first := getJwks provider cache false
  match findKeyInJwks first.1 kid with
  | some key => (.ok key, first.2.1, first.2.2)
  | none =>
    let second := getJwks provider first.2.1 true
    match findKeyInJwks second.1 kid with
    | some key => (.ok key, second.2.1, first.2.2 + second.2.2)
    | none =>
      (.error { statusCode := 401, errorCode := "JWKS_ERROR" },
       second.2.1, first.2.2 + second.2.2)

/-! ## validate_token_claims (src/backend/app/core/auth.py)

A decoded payload is a JSON object; the values the function inspects are
modelled by `JVal`, with Python truthiness.  `parties` models
`settings.CLERK_AUTHORIZED_PARTIES`; Python truthiness of the list makes an
empty list skip the azp check.
-/

inductive JVal where
  | str (s : String)
  | num (n : Int)
  | null
deriving DecidableEq, Repr

/-- Python truthiness for the modelled values. -/
def JVal.truthy : JVal → Bool
  | .str s => !s.isEmpty
  | .num n => n != 0
  | .null => false

/-- Membership test `azp not in parties` against a list of strings. -/
def JVal.inParties : JVal → List String → Bool
  | .str s, parties => parties.contains s
  | _, _ => false

/-- Decoded token payload: a JSON object as key/value pairs. -/
def Payload := List (String × JVal)

/-- Dictionary lookup `payload.get(k)`. -/
def payloadGet (payload : Payload) (k : String) : Option JVal :=
  (payload.find? (fun kv => kv.1 == k)).map (fun kv => kv.2)

/-- Embedding of `validate_token_claims`. -/
def validateTokenClaims (parties : List String) (payload : Payload) :
    Except AuthError Unit :=
  let required := ["sub", "exp", "iat"]
  let missing := required.filter (fun c => (payloadGet payload c).isNone)
  if !missing.isEmpty then
    .error { statusCode := 401, errorCode := "INVALID_TOKEN" }
  else if !parties.isEmpty then
    match payloadGet payload "azp" with
    | some azp =>
      if azp.truthy && !(azp.inParties parties) then
        .error { statusCode := 401, errorCode := "INVALID_TOKEN" }
      else .ok ()
    | none => .ok ()
  else .ok ()

/-! ## Interleavings of the background job with cancel_task

Small-step model of one task's status under the event loop, derived from
`_execute_review_generation`, `cancel_task` and asyncio semantics:

* the event loop is single-threaded; a coroutine runs atomically between
  suspension points, and the job's suspension points are its awaited
  external calls (the paper fetches and `generate_review`) — the database
  calls and the `finally` cleanup never yield to the scheduler;
* `asyncio.Task.cancel` marks the job so that its next resumption raises
  `CancelledError` into the coroutine, whether the cancel arrived while the
  job was suspended or while it was ready but not yet resumed;
* `CancelledError` derives from `BaseException`, so the job's
  `except Exception` handler does not catch it and the interrupted job
  ends without touching the status column.

A state carries the committed status column, the job's position and the
pending-cancellation mark.  Each constructor is one atomic step of either
operation; the fetch/generate outcomes (papers found, no papers, ordinary
exception, or a failing commit of the error-path update) appear as
distinct constructors, making the relation cover every oracle behaviour.
-/

inductive JobPC where
  | notStarted
  | atFetch
  | atGenerate
  | finished
deriving DecidableEq, Repr

structure TrackerState where
  status : TaskStatus
  pc : JobPC
  cancelRequested : Bool
deriving DecidableEq, Repr

/-- Initial state: the row was committed PENDING by `create_task` and the
background job is tracked but has not run yet. -/
def trackerInit : TrackerState :=
  { status := .pending, pc := .notStarted, cancelRequested := false }

inductive TrackerStep : TrackerState → TrackerState → Prop where
  /-- First run of the coroutine: load the row, set RUNNING, commit, and
  enter the fetch phase. -/
  | jobStart (s : TaskStatus) :
      TrackerStep ⟨s, .notStarted, false⟩ ⟨.running, .atFetch, false⟩
  /-- The job was cancelled before its first run: the body never executes. -/
  | jobStartCancelled (s : TaskStatus) :
      TrackerStep ⟨s, .notStarted, true⟩ ⟨s, .finished, true⟩
  /-- CancelledError delivered at the fetch await; not caught by
  `except Exception`, `finally` cleanup runs, status untouched. -/
  | fetchCancelled (s : TaskStatus) :
      TrackerStep ⟨s, .atFetch, true⟩ ⟨s, .finished, true⟩
  /-- Fetch resumed with papers: truncate and enter `generate_review`. -/
  | fetchOk (s : TaskStatus) :
      TrackerStep ⟨s, .atFetch, false⟩ ⟨s, .atGenerate, false⟩
  /-- Fetch resumed with no papers or an ordinary exception: the handler
  commits FAILED with the message. -/
  | fetchFail (s : TaskStatus) :
      TrackerStep ⟨s, .atFetch, false⟩ ⟨.failed, .finished, false⟩
  /-- Same, but the error-path commit itself fails: logged, row unchanged. -/
  | fetchFailCommitFail (s : TaskStatus) :
      TrackerStep ⟨s, .atFetch, false⟩ ⟨s, .finished, false⟩
  /-- CancelledError delivered at the `generate_review` await. -/
  | generateCancelled (s : TaskStatus) :
      TrackerStep ⟨s, .atGenerate, true⟩ ⟨s, .finished, true⟩
  /-- Generation resumed with a review: COMPLETED with result committed,
  cleanup and return, all without yielding. -/
  | generateOk (s : TaskStatus) :
      TrackerStep ⟨s, .atGenerate, false⟩ ⟨.completed, .finished, false⟩
  /-- Generation resumed with an ordinary exception: FAILED committed. -/
  | generateFail (s : TaskStatus) :
      TrackerStep ⟨s, .atGenerate, false⟩ ⟨.failed, .finished, false⟩
  /-- Same, but the error-path commit fails: logged, row unchanged. -/
  | generateFailCommitFail (s : TaskStatus) :
      TrackerStep ⟨s, .atGenerate, false⟩ ⟨s, .finished, false⟩
  /-- One atomic run of `cancel_task` on a PENDING or RUNNING row: cancel
  the tracked handle and commit FAILED with the cancellation message.  On a
  terminal row `cancel_task` returns false without any state change, so no
  step is needed for that case. -/
  | cancel (pc : JobPC) (c : Bool) (s : TaskStatus)
      (h : s = .pending ∨ s = .running) :
      TrackerStep ⟨s, pc, c⟩ ⟨.failed, pc, true⟩

/-- Reachability from the initial state. -/
def TrackerReachable (s : TrackerState) : Prop :=
  Relation.ReflTransGen TrackerStep trackerInit s

/-- Status order of the task lifecycle: a status may only be followed by
itself or by a strictly later phase, and the two terminal statuses are
incomparable. -/
def statusReach (a b : TaskStatus) : Prop :=
  a = b ∨ (a = .pending ∧ b ≠ .pending) ∨
    (a = .running ∧ (b = .completed ∨ b = .failed))

/-- Inductive invariant tying the job position to the status column. -/
def TrackerInv (s : TrackerState) : Prop :=
  (s.pc = .notStarted →
    s.status = .pending ∨ (s.status = .failed ∧ s.cancelRequested = true)) ∧
  (s.pc = .atFetch ∨ s.pc = .atGenerate →
    s.status = .running ∨ (s.status = .failed ∧ s.cancelRequested = true))

theorem trackerInv_init : TrackerInv trackerInit := by
  constructor <;> intro h <;> simp [trackerInit] at h ⊢

theorem trackerInv_step {s s' : TrackerState} (hinv : TrackerInv s)
    (hstep : TrackerStep s s') : TrackerInv s' := by
  cases hstep <;> simp_all [TrackerInv]

theorem trackerStep_statusReach {s s' : TrackerState} (hinv : TrackerInv s)
    (hstep : TrackerStep s s') : statusReach s.status s'.status := by
  cases hstep <;> simp_all [TrackerInv, statusReach]

theorem statusReach_trans {a b c : TaskStatus} (h1 : statusReach a b)
    (h2 : statusReach b c) : statusReach a c := by
  cases a <;> cases b <;> cases c <;> simp_all [statusReach]

/-! ## Theorems about the embedded operations -/

theorem findTask_updateFirstTask (tasks : List Task) (taskId : String)
    (userId : Nat) (f : Task → Task)
    (hf : ∀ t, (f t).id = t.id ∧ (f t).userId = t.userId) :
    findTask (updateFirstTask tasks taskId userId f) taskId userId =
      (findTask tasks taskId userId).map f := by
  induction tasks with
  | nil => rfl
  | cons t ts ih =>
    by_cases h : (t.id == taskId && t.userId == userId) = true
    · have hft : ((f t).id == taskId && (f t).userId == userId) = true := by
        rw [(hf t).1, (hf t).2]; exact h
      simp [updateFirstTask, findTask, h, List.find?_cons_of_pos, hft]
    · have hfalse : (t.id == taskId && t.userId == userId) = false := by
        simpa using h
      simp only [updateFirstTask, hfalse, Bool.false_eq_true, if_false,
        findTask, List.find?_cons] at ih ⊢
      exact ih

/-- C4: `cancel_task` returns false and leaves the state unchanged when the
task is missing, not owned by the caller, or already terminal; on an owned
PENDING or RUNNING task it returns true, commits FAILED with the message
"Task cancelled by user", removes the tracking-table entry, and cancels the
tracked background job if one was tracked. -/
theorem cancel_task_spec (st : ServiceState) (taskId : String) (userId : Nat) :
    (findTask st.tasks taskId userId = none →
      cancelTask st taskId userId = (false, st)) ∧
    (∀ t, findTask st.tasks taskId userId = some t → t.status.isTerminal = true →
      cancelTask st taskId userId = (false, st)) ∧
    (∀ t, findTask st.tasks taskId userId = some t →
      (t.status = .pending ∨ t.status = .running) →
      (cancelTask st taskId userId).1 = true ∧
      findTask (cancelTask st taskId userId).2.tasks taskId userId =
        some { t with status := .failed,
                      errorMessage := some "Task cancelled by user" } ∧
      taskId ∉ (cancelTask st taskId userId).2.runningTasks ∧
      (taskId ∈ st.runningTasks →
        taskId ∈ (cancelTask st taskId userId).2.cancelledJobs)) := by
  refine ⟨?_, ?_, ?_⟩
  · intro hnone
    simp [cancelTask, hnone]
  · intro t ht hterm
    have hb : (t.status == TaskStatus.pending || t.status == TaskStatus.running) = false := by
      cases hs : t.status <;> simp_all [TaskStatus.isTerminal]
    simp [cancelTask, ht, hb]
  · intro t ht hpr
    have hb : (t.status == TaskStatus.pending || t.status == TaskStatus.running) = true := by
      rcases hpr with h | h <;> simp [h]
    have hupd := findTask_updateFirstTask st.tasks taskId userId
      (fun t => { t with status := .failed,
                         errorMessage := some "Task cancelled by user" })
      (fun t => ⟨rfl, rfl⟩)
    by_cases hmem : taskId ∈ st.runningTasks
    · simp [cancelTask, ht, hb, hmem, hupd, List.mem_filter]
    · simp [cancelTask, ht, hb, hmem, hupd]

/-- C2: signing-key resolution looks the key id up in the valid cached key
set with no provider fetch on a hit; on a miss it performs exactly one
forced provider fetch and retries once, succeeding with the refreshed key
when the provider has it and otherwise failing with the 401 JWKS error. -/
theorem signing_key_resolution (provider cached : List JWK) (kid : String) :
    (∀ k, findKeyInJwks cached kid = some k →
      getSigningKey provider (some cached) kid = (.ok k, some cached, 0)) ∧
    (findKeyInJwks cached kid = none →
      (∀ k, findKeyInJwks provider kid = some k →
        getSigningKey provider (some cached) kid = (.ok k, some provider, 1)) ∧
      (findKeyInJwks provider kid = none →
        getSigningKey provider (some cached) kid =
          (.error { statusCode := 401, errorCode := "JWKS_ERROR" },
           some provider, 1))) := by
  refine ⟨?_, ?_⟩
  · intro k hk
    simp [getSigningKey, getJwks, hk]
  · intro hmiss
    refine ⟨?_, ?_⟩
    · intro k hk
      simp [getSigningKey, getJwks, hmiss, hk]
    · intro hmiss2
      simp [getSigningKey, getJwks, hmiss, hmiss2]

theorem signing_key_resolution_witness :
    getSigningKey [⟨"k2", "K2"⟩] (some [⟨"k1", "K1"⟩]) "k2" =
      (.ok "K2", some [⟨"k2", "K2"⟩], 1) :=
  ((signing_key_resolution [⟨"k2", "K2"⟩] [⟨"k1", "K1"⟩] "k2").2
    (by decide)).1 "K2" (by decide)

theorem cancel_task_spec_witness :
    (cancelTask ⟨[⟨"t1", 1, .running, none, none⟩], ["t1"], []⟩ "t1" 1).1 = true :=
  ((cancel_task_spec ⟨[⟨"t1", 1, .running, none, none⟩], ["t1"], []⟩ "t1" 1).2.2
    ⟨"t1", 1, .running, none, none⟩ (by decide) (Or.inr rfl)).1

theorem trackerInv_reachable {s : TrackerState} (h : TrackerReachable s) :
    TrackerInv s := by
  induction h with
  | refl => exact trackerInv_init
  | tail _ hstep ih => exact trackerInv_step ih hstep

theorem trackerSteps_aux {s s' : TrackerState} (hinv : TrackerInv s)
    (h : Relation.ReflTransGen TrackerStep s s') :
    TrackerInv s' ∧ statusReach s.status s'.status := by
  induction h with
  | refl => exact ⟨hinv, Or.inl rfl⟩
  | tail _ hstep ih =>
    exact ⟨trackerInv_step ih.1 hstep,
      statusReach_trans ih.2 (trackerStep_statusReach ih.1 hstep)⟩

theorem statusReach_terminal {a b : TaskStatus} (ht : a.isTerminal = true)
    (h : statusReach a b) : b = a := by
  cases a <;> cases b <;> simp_all [TaskStatus.isTerminal, statusReach]

/-- C1: along every interleaving of the background review-generation job
with `cancel_task`, the committed status only moves forward through the
order PENDING, RUNNING, terminal, and once the status is COMPLETED or
FAILED no later step of either operation changes it. -/
theorem task_status_lifecycle (s s' : TrackerState)
    (hreach : TrackerReachable s)
    (hsteps : Relation.ReflTransGen TrackerStep s s') :
    statusReach s.status s'.status ∧
    (s.status.isTerminal = true → s'.status = s.status) := by
  have h := trackerSteps_aux (trackerInv_reachable hreach) hsteps
  exact ⟨h.2, fun ht => statusReach_terminal ht h.2⟩

theorem payloadRequiredPresent (payload : Payload)
    (hsub : payloadGet payload "sub" ≠ none)
    (hexp : payloadGet payload "exp" ≠ none)
    (hiat : payloadGet payload "iat" ≠ none) :
    (["sub", "exp", "iat"].filter
      (fun c => (payloadGet payload c).isNone)).isEmpty = true := by
  have h1 : (payloadGet payload "sub").isNone = false := by
    cases hc : payloadGet payload "sub" with
    | none => exact absurd hc hsub
    | some v => rfl
  have h2 : (payloadGet payload "exp").isNone = false := by
    cases hc : payloadGet payload "exp" with
    | none => exact absurd hc hexp
    | some v => rfl
  have h3 : (payloadGet payload "iat").isNone = false := by
    cases hc : payloadGet payload "iat" with
    | none => exact absurd hc hiat
    | some v => rfl
  simp [List.filter, h1, h2, h3]

/-- C3 counterexample: under the non-empty allow-list, a payload carrying an
azp claim whose value (the empty string) is not in the list nevertheless
passes claim validation, because the code skips the check for falsy azp
values; the claim as stated predicts a 401 failure for every such payload. -/
theorem azp_allowlist_counterexample :
    validateTokenClaims ["https://app.example"]
      [("sub", .str "u"), ("exp", .num 1), ("iat", .num 1), ("azp", .str "")] =
      .ok () ∧
    List.contains ["https://app.example"] "" = false := by
  constructor
  · rfl
  · rfl

/-- C3 (amended): for every payload containing the required claims sub, exp
and iat, carrying an azp claim with a non-empty value not in the non-empty
configured allow-list, claim validation fails with a 401; the same payload
under an empty allow-list passes, the azp check being skipped. -/
theorem azp_allowlist_enforcement (parties : List String) (payload : Payload)
    (azp : String)
    (hsub : payloadGet payload "sub" ≠ none)
    (hexp : payloadGet payload "exp" ≠ none)
    (hiat : payloadGet payload "iat" ≠ none)
    (hazp : payloadGet payload "azp" = some (.str azp)) :
    (parties ≠ [] → azp.isEmpty = false → parties.contains azp = false →
      validateTokenClaims parties payload =
        .error { statusCode := 401, errorCode := "INVALID_TOKEN" }) ∧
    (parties = [] → validateTokenClaims parties payload = .ok ()) := by
  have hreq := payloadRequiredPresent payload hsub hexp hiat
  constructor
  · intro hp hne hmem
    have hpe : parties.isEmpty = false := by
      cases parties with
      | nil => exact absurd rfl hp
      | cons a l => rfl
    have hmem2 : azp ∉ parties := by simpa using hmem
    simp [validateTokenClaims, hreq, hpe, hazp, JVal.truthy, JVal.inParties,
      hne, hmem2]
  · intro hp
    subst hp
    simp [validateTokenClaims, hreq]

theorem azp_allowlist_enforcement_witness :
    validateTokenClaims ["https://app.example"]
      [("sub", .str "u"), ("exp", .num 1), ("iat", .num 1),
       ("azp", .str "https://evil.example")] =
      .error { statusCode := 401, errorCode := "INVALID_TOKEN" } :=
  (azp_allowlist_enforcement ["https://app.example"]
    [("sub", .str "u"), ("exp", .num 1), ("iat", .num 1),
     ("azp", .str "https://evil.example")] "https://evil.example"
    (by simp [payloadGet]) (by simp [payloadGet]) (by simp [payloadGet])
    (by simp [payloadGet])).1 (by simp) rfl rfl

/-- C9 counterexample: a payload lacking an azp claim is not accepted under
a non-empty allow-list when it also lacks the required claims — the
required-claims check rejects it first, so the claim's unconditional
acceptance of azp-free payloads fails. -/
theorem azp_absent_counterexample :
    payloadGet [] "azp" = none ∧
    validateTokenClaims ["https://app.example"] [] =
      .error { statusCode := 401, errorCode := "INVALID_TOKEN" } := by
  constructor
  · rfl
  · rfl

/-- C9 (amended): for every payload containing the required claims sub, exp
and iat, claim validation accepts it whenever the azp claim is absent or
falsy, even under a non-empty allow-list; and any rejection of such a
payload can only come from a present, truthy azp value outside the
non-empty allow-list. -/
theorem azp_absent_accepted (parties : List String) (payload : Payload)
    (hsub : payloadGet payload "sub" ≠ none)
    (hexp : payloadGet payload "exp" ≠ none)
    (hiat : payloadGet payload "iat" ≠ none) :
    (payloadGet payload "azp" = none →
      validateTokenClaims parties payload = .ok ()) ∧
    (∀ azp, payloadGet payload "azp" = some azp → azp.truthy = false →
      validateTokenClaims parties payload = .ok ()) ∧
    (∀ err, validateTokenClaims parties payload = .error err →
      ∃ azp, payloadGet payload "azp" = some azp ∧ azp.truthy = true ∧
        azp.inParties parties = false ∧ parties ≠ []) := by
  have hreq := payloadRequiredPresent payload hsub hexp hiat
  refine ⟨?_, ?_, ?_⟩
  · intro hnone
    cases hp : parties with
    | nil => simp [validateTokenClaims, hreq]
    | cons a l => simp [validateTokenClaims, hreq, hnone]
  · intro azp hazp htr
    cases hp : parties with
    | nil => simp [validateTokenClaims, hreq]
    | cons a l => simp [validateTokenClaims, hreq, hazp, htr]
  · intro err herr
    cases hp : parties with
    | nil => simp [validateTokenClaims, hreq, hp] at herr
    | cons a l =>
      cases hazp : payloadGet payload "azp" with
      | none => simp [validateTokenClaims, hreq, hp, hazp] at herr
      | some azp =>
        by_cases hc : (azp.truthy && !(azp.inParties (a :: l))) = true
        · have ht := (Bool.and_eq_true_iff.mp hc).1
          have hnp : azp.inParties (a :: l) = false := by
            simpa using (Bool.and_eq_true_iff.mp hc).2
          exact ⟨azp, rfl, ht, hnp, by simp⟩
        · simp [validateTokenClaims, hreq, hp, hazp, hc] at herr

theorem azp_absent_accepted_witness :
    validateTokenClaims ["https://app.example"]
      [("sub", .str "u"), ("exp", .num 1), ("iat", .num 1)] = .ok () :=
  (azp_absent_accepted ["https://app.example"]
    [("sub", .str "u"), ("exp", .num 1), ("iat", .num 1)]
    (by simp [payloadGet]) (by simp [payloadGet]) (by simp [payloadGet])).1
    (by rfl)

theorem invokeLoop_all_fail {T : Type} (invoke : Nat → Except PyExc String)
    (parser : String → Except PyExc T) (fallback : T) (maxRetries : Nat) :
    ∀ fuel a, fuel = maxRetries - a → a ≤ maxRetries →
    (∀ i, a ≤ i → i < maxRetries → attemptFails invoke parser i) →
    invokeLoop invoke parser fallback maxRetries a fuel = (.ok fallback, fuel) := by
  intro fuel
  induction fuel with
  | zero => intro a _ _ _; rfl
  | succ fuel ih =>
    intro a hfuel ha h
    have hlt : a < maxRetries := by omega
    have hf := h a le_rfl hlt
    have hrec : a < maxRetries - 1 →
        invokeLoop invoke parser fallback maxRetries (a + 1) fuel =
          (.ok fallback, fuel) := by
      intro hless
      exact ih (a + 1) (by omega) (by omega)
        (fun i h1 h2 => h i (by omega) h2)
    cases hinv : invoke a with
    | error e =>
      simp only [attemptFails, hinv] at hf
      by_cases hlast : a < maxRetries - 1
      · simp [invokeLoop, hinv, hf, hlast, hrec hlast]
      · have hfuel0 : fuel = 0 := by omega
        simp [invokeLoop, hinv, hf, hlast, hfuel0]
    | ok s =>
      simp only [attemptFails, hinv] at hf
      obtain ⟨e, hpe, hec⟩ := hf
      by_cases hlast : a < maxRetries - 1
      · by_cases hpc : e.isParseErrorClass = true
        · simp [invokeLoop, hinv, hpe, hpc, hlast, hrec hlast]
        · simp [invokeLoop, hinv, hpe, hpc, hec, hlast, hrec hlast]
      · have hfuel0 : fuel = 0 := by omega
        by_cases hpc : e.isParseErrorClass = true
        · simp [invokeLoop, hinv, hpe, hpc, hlast, hfuel0]
        · simp [invokeLoop, hinv, hpe, hpc, hec, hlast, hfuel0]

theorem invokeLoop_first_success {T : Type} (invoke : Nat → Except PyExc String)
    (parser : String → Except PyExc T) (fallback : T) (maxRetries : Nat) :
    ∀ fuel a i s v, fuel = maxRetries - a → a ≤ i → i < maxRetries →
    (∀ j, a ≤ j → j < i → attemptFails invoke parser j) →
    invoke i = .ok s → parser s = .ok v →
    invokeLoop invoke parser fallback maxRetries a fuel = (.ok v, i + 1 - a) := by
  intro fuel
  induction fuel with
  | zero => intro a i s v hfuel hai hi _ _ _; omega
  | succ fuel ih =>
    intro a i s v hfuel hai hi h hs hv
    rcases Nat.eq_or_lt_of_le hai with heq | hlt
    · subst heq
      have harith : a + 1 - a = 1 := by omega
      simp [invokeLoop, hs, hv, harith]
    · have hf := h a le_rfl hlt
      have hless : a < maxRetries - 1 := by omega
      have hrec := ih (a + 1) i s v (by omega) (by omega) hi
        (fun j h1 h2 => h j (by omega) h2) hs hv
      have hcount : i + 1 - (a + 1) + 1 = i + 1 - a := by omega
      cases hinv : invoke a with
      | error e =>
        simp only [attemptFails, hinv] at hf
        simp [invokeLoop, hinv, hf, hless, hrec, hcount]
        omega
      | ok s0 =>
        simp only [attemptFails, hinv] at hf
        obtain ⟨e, hpe, hec⟩ := hf
        by_cases hpc : e.isParseErrorClass = true
        · simp [invokeLoop, hinv, hpe, hpc, hless, hrec, hcount]
          omega
        · simp [invokeLoop, hinv, hpe, hpc, hec, hless, hrec, hcount]
          omega

/-- C8: when every loop iteration fails with an `Exception`-class error,
`invoke_llm_with_retry` performs exactly `max_retries` attempts and returns
the caller-supplied fallback; when the attempts before `i` fail and attempt
`i` parses successfully, the parsed value is returned after exactly `i + 1`
attempts. -/
theorem invoke_llm_with_retry_spec {T : Type} (invoke : Nat → Except PyExc String)
    (parser : String → Except PyExc T) (fallback : T) (maxRetries : Nat) :
    ((∀ i, i < maxRetries → attemptFails invoke parser i) →
      invokeLlmWithRetry invoke parser fallback maxRetries =
        (.ok fallback, maxRetries)) ∧
    (∀ i s v, i < maxRetries →
      (∀ j, j < i → attemptFails invoke parser j) →
      invoke i = .ok s → parser s = .ok v →
      invokeLlmWithRetry invoke parser fallback maxRetries = (.ok v, i + 1)) := by
  constructor
  · intro h
    exact invokeLoop_all_fail invoke parser fallback maxRetries maxRetries 0
      (by omega) (Nat.zero_le _) (fun i _ h2 => h i h2)
  · intro i s v hi hprev hs hv
    have h := invokeLoop_first_success invoke parser fallback maxRetries
      maxRetries 0 i s v (by omega) (Nat.zero_le _) hi
      (fun j _ h2 => hprev j h2) hs hv
    simpa [invokeLlmWithRetry] using h

theorem invoke_llm_with_retry_spec_witness :
    invokeLlmWithRetry (fun _ => .error (.exc "service down"))
      (fun s => (.ok s : Except PyExc String)) "fallback text" 2 =
      (.ok "fallback text", 2) :=
  (invoke_llm_with_retry_spec (fun _ => .error (.exc "service down"))
    (fun s => (.ok s : Except PyExc String)) "fallback text" 2).1
    (fun _ _ => rfl)

/-- C10 counterexample: a `BaseException`-class error (such as
`KeyboardInterrupt` or `asyncio.CancelledError`) raised by `llm.invoke`
escapes `invoke_llm_with_retry` on the first attempt instead of being
converted to the fallback, because `except Exception` does not catch it;
the claim as stated says no exception of any type escapes. -/
theorem retry_totality_counterexample :
    (invokeLlmWithRetry (fun _ => .error (.baseExc "KeyboardInterrupt"))
      (fun s => (.ok s : Except PyExc String)) "fallback text" 2).1 =
      .error (.baseExc "KeyboardInterrupt") := rfl

theorem invokeLoop_error_not_exception_class {T : Type}
    (invoke : Nat → Except PyExc String) (parser : String → Except PyExc T)
    (fallback : T) (maxRetries : Nat) :
    ∀ fuel a e, (invokeLoop invoke parser fallback maxRetries a fuel).1 = .error e →
    e.isExceptionClass = false := by
  intro fuel
  induction fuel with
  | zero => intro a e h; simp [invokeLoop] at h
  | succ fuel ih =>
    intro a e h
    cases hinv : invoke a with
    | error e0 =>
      by_cases hc : e0.isExceptionClass = true
      · by_cases hlast : a < maxRetries - 1
        · simp [invokeLoop, hinv, hc, hlast] at h
          exact ih (a + 1) e h
        · simp [invokeLoop, hinv, hc, hlast] at h
      · simp [invokeLoop, hinv, hc] at h
        subst h
        simpa using hc
    | ok s =>
      cases hp : parser s with
      | ok v => simp [invokeLoop, hinv, hp] at h
      | error e0 =>
        by_cases hpc : e0.isParseErrorClass = true
        · by_cases hlast : a < maxRetries - 1
          · simp [invokeLoop, hinv, hp, hpc, hlast] at h
            exact ih (a + 1) e h
          · simp [invokeLoop, hinv, hp, hpc, hlast] at h
        · by_cases hc : e0.isExceptionClass = true
          · by_cases hlast : a < maxRetries - 1
            · simp [invokeLoop, hinv, hp, hpc, hc, hlast] at h
              exact ih (a + 1) e h
            · simp [invokeLoop, hinv, hp, hpc, hc, hlast] at h
          · simp [invokeLoop, hinv, hp, hpc, hc] at h
            subst h
            simpa using hc

theorem invokeLoop_ok_of_exception_class {T : Type}
    (invoke : Nat → Except PyExc String) (parser : String → Except PyExc T)
    (fallback : T) (maxRetries : Nat)
    (hinvoke : ∀ i e, invoke i = .error e → e.isExceptionClass = true)
    (hparser : ∀ s e, parser s = .error e → e.isExceptionClass = true) :
    ∀ fuel a, ∃ v, (invokeLoop invoke parser fallback maxRetries a fuel).1 = .ok v := by
  intro fuel
  induction fuel with
  | zero => intro a; exact ⟨fallback, rfl⟩
  | succ fuel ih =>
    intro a
    cases hinv : invoke a with
    | error e0 =>
      have hc := hinvoke a e0 hinv
      by_cases hlast : a < maxRetries - 1
      · obtain ⟨v, hv⟩ := ih (a + 1)
        exact ⟨v, by simp [invokeLoop, hinv, hc, hlast, hv]⟩
      · exact ⟨fallback, by simp [invokeLoop, hinv, hc, hlast]⟩
    | ok s =>
      cases hp : parser s with
      | ok v => exact ⟨v, by simp [invokeLoop, hinv, hp]⟩
      | error e0 =>
        have hc := hparser s e0 hp
        by_cases hpc : e0.isParseErrorClass = true
        · by_cases hlast : a < maxRetries - 1
          · obtain ⟨v, hv⟩ := ih (a + 1)
            exact ⟨v, by simp [invokeLoop, hinv, hp, hpc, hlast, hv]⟩
          · exact ⟨fallback, by simp [invokeLoop, hinv, hp, hpc, hlast]⟩
        · by_cases hlast : a < maxRetries - 1
          · obtain ⟨v, hv⟩ := ih (a + 1)
            exact ⟨v, by simp [invokeLoop, hinv, hp, hpc, hc, hlast, hv]⟩
          · exact ⟨fallback, by simp [invokeLoop, hinv, hp, hpc, hc, hlast]⟩

/-- C10 (amended): the only exceptions that can escape
`invoke_llm_with_retry` are those not deriving from `Exception` (such as
`KeyboardInterrupt` or `asyncio.CancelledError`); whenever the LLM and the
parser raise only `Exception`-class errors, every execution returns a
parsed value or the caller-supplied fallback. -/
theorem retry_exception_totality {T : Type} (invoke : Nat → Except PyExc String)
    (parser : String → Except PyExc T) (fallback : T) (maxRetries : Nat) :
    (∀ e, (invokeLlmWithRetry invoke parser fallback maxRetries).1 = .error e →
      e.isExceptionClass = false) ∧
    ((∀ i e, invoke i = .error e → e.isExceptionClass = true) →
     (∀ s e, parser s = .error e → e.isExceptionClass = true) →
     ∃ v, (invokeLlmWithRetry invoke parser fallback maxRetries).1 = .ok v) := by
  constructor
  · intro e h
    exact invokeLoop_error_not_exception_class invoke parser fallback maxRetries
      maxRetries 0 e h
  · intro h1 h2
    exact invokeLoop_ok_of_exception_class invoke parser fallback maxRetries
      h1 h2 maxRetries 0

theorem retry_exception_totality_witness :
    ∃ v, (invokeLlmWithRetry (fun _ => .ok "raw response")
      (fun s => (.ok s : Except PyExc String)) "fallback text" 2).1 = .ok v :=
  (retry_exception_totality (fun _ => .ok "raw response")
    (fun s => (.ok s : Except PyExc String)) "fallback text" 2).2
    (fun _ _ h => Except.noConfusion h) (fun _ _ h => Except.noConfusion h)

theorem isLowerHexChar_toLower {c : Char} (h : isHexChar c = true) :
    isLowerHexChar (Char.toLower c) = true := by
  have hch : c = Char.ofNat c.toNat := (Char.ofNat_toNat c).symm
  simp only [isHexChar, Bool.or_eq_true, Bool.and_eq_true, decide_eq_true_eq] at h
  rcases h with (hd | ⟨h1, h2⟩) | ⟨h1, h2⟩
  · have hb : 48 ≤ c.toNat ∧ c.toNat ≤ 57 := by
      simp [Char.isDigit] at hd
      exact hd
    have hdisj : c.toNat = 48 ∨ c.toNat = 49 ∨ c.toNat = 50 ∨ c.toNat = 51 ∨
        c.toNat = 52 ∨ c.toNat = 53 ∨ c.toNat = 54 ∨ c.toNat = 55 ∨
        c.toNat = 56 ∨ c.toNat = 57 := by omega
    rcases hdisj with h | h | h | h | h | h | h | h | h | h <;>
      (rw [h] at hch; rw [hch]; decide)
  · have hb1 : 97 ≤ c.toNat := by rw [Char.le_def] at h1; exact h1
    have hb2 : c.toNat ≤ 102 := by rw [Char.le_def] at h2; exact h2
    have hdisj : c.toNat = 97 ∨ c.toNat = 98 ∨ c.toNat = 99 ∨ c.toNat = 100 ∨
        c.toNat = 101 ∨ c.toNat = 102 := by omega
    rcases hdisj with h | h | h | h | h | h <;>
      (rw [h] at hch; rw [hch]; decide)
  · have hb1 : 65 ≤ c.toNat := by rw [Char.le_def] at h1; exact h1
    have hb2 : c.toNat ≤ 70 := by rw [Char.le_def] at h2; exact h2
    have hdisj : c.toNat = 65 ∨ c.toNat = 66 ∨ c.toNat = 67 ∨ c.toNat = 68 ∨
        c.toNat = 69 ∨ c.toNat = 70 := by omega
    rcases hdisj with h | h | h | h | h | h <;>
      (rw [h] at hch; rw [hch]; decide)

theorem matchUploadCore_eq_some (cs h : List Char) :
    matchUploadCore cs = some h ↔
      cs = "upload_".data ++ h ∧ h.length = 10 ∧ h.all isHexChar = true := by
  constructor
  · intro hm
    rw [matchUploadCore] at hm
    split_ifs at hm with h7 h10
    · simp only [beq_iff_eq] at h7
      simp only [Bool.and_eq_true, beq_iff_eq] at h10
      have hdrop : h = cs.drop 7 := by
        injection hm with hm
        exact hm.symm
      subst hdrop
      refine ⟨?_, h10.1, h10.2⟩
      conv_lhs => rw [← List.take_append_drop 7 cs]
      rw [h7]
  · rintro ⟨rfl, hlen, hall⟩
    have hlen7 : ("upload_".data : List Char).length = 7 := rfl
    have htake : ("upload_".data ++ h).take 7 = "upload_".data := by
      rw [List.take_append_eq_append_take, hlen7]
      simp
    have hdrop : ("upload_".data ++ h).drop 7 = h := by
      rw [List.drop_append_eq_append_drop, hlen7]
      simp
    rw [matchUploadCore, htake, hdrop]
    simp [hlen, hall]

theorem matchUploadId_eq_some (cs h : List Char) :
    matchUploadId cs = some h ↔
      ∃ tail, cs = "upload_".data ++ h ++ tail ∧ h.length = 10 ∧
        h.all isHexChar = true ∧ (tail = [] ∨ tail = ['\n']) := by
  constructor
  · intro hm
    rw [matchUploadId] at hm
    cases hc : matchUploadCore cs with
    | some h0 =>
      rw [hc] at hm
      have heq : h0 = h := by injection hm
      obtain ⟨hcs, hlen, hall⟩ := (matchUploadCore_eq_some cs h0).mp hc
      rw [heq] at hcs hlen hall
      exact ⟨[], by simpa using hcs, hlen, hall, Or.inl rfl⟩
    | none =>
      rw [hc] at hm
      split_ifs at hm with hlast
      simp only [beq_iff_eq] at hlast
      obtain ⟨hcs, hlen, hall⟩ := (matchUploadCore_eq_some cs.dropLast h).mp hm
      have hne : cs ≠ [] := by
        rintro rfl
        simp at hlast
      have hrec : cs.dropLast ++ ['\n'] = cs := by
        rw [List.getLast?_eq_getLast cs hne, Option.some_inj] at hlast
        rw [← hlast]
        exact List.dropLast_concat_getLast hne
      refine ⟨['\n'], ?_, hlen, hall, Or.inr rfl⟩
      rw [← hrec, hcs, List.append_assoc]
  · rintro ⟨tail, rfl, hlen, hall, htail⟩
    rcases htail with rfl | rfl
    · rw [matchUploadId]
      have hc : matchUploadCore ("upload_".data ++ h ++ []) = some h := by
        rw [List.append_nil]
        exact (matchUploadCore_eq_some _ h).mpr ⟨rfl, hlen, hall⟩
      rw [hc]
    · have hc : matchUploadCore ("upload_".data ++ h ++ ['\n']) = none := by
        cases hc2 : matchUploadCore ("upload_".data ++ h ++ ['\n']) with
        | none => rfl
        | some h2 =>
          obtain ⟨hcs, hlen2, _⟩ := (matchUploadCore_eq_some _ h2).mp hc2
          rw [List.append_assoc] at hcs
          have : h ++ ['\n'] = h2 := List.append_cancel_left hcs
          rw [← this] at hlen2
          simp at hlen2
          omega
      rw [matchUploadId, hc]
      have hlast : ("upload_".data ++ h ++ ['\n']).getLast? = some '\n' :=
        List.getLast?_concat _
      have hdl : ("upload_".data ++ h ++ ['\n']).dropLast = "upload_".data ++ h :=
        List.dropLast_concat
      rw [hlast, hdl]
      simp only [beq_self_eq_true, if_true]
      exact (matchUploadCore_eq_some _ h).mpr ⟨rfl, hlen, hall⟩

theorem extractUploadHash_eq_some (s hash : String) :
    extractUploadHash s = some hash ↔
      ∃ core tail, s.data = "upload_".data ++ core ++ tail ∧ core.length = 10 ∧
        core.all isHexChar = true ∧ (tail = [] ∨ tail = ['\n']) ∧
        hash = String.mk (core.map Char.toLower) := by
  rw [extractUploadHash]
  by_cases he : s.isEmpty = true
  · rw [if_pos he]
    have hs : s = "" := (String.isEmpty_iff s).mp he
    subst hs
    constructor
    · intro hh
      exact Option.noConfusion hh
    · rintro ⟨core, tail, habs, -, -, -, -⟩
      have hnil : ("" : String).data = [] := rfl
      rw [hnil] at habs
      exact absurd habs.symm (by simp)
  · rw [if_neg he]
    constructor
    · intro hh
      obtain ⟨h0, hm, hmap⟩ := Option.map_eq_some'.mp hh
      obtain ⟨tail, hcs, hlen, hall, htail⟩ :=
        (matchUploadId_eq_some s.data h0).mp hm
      exact ⟨h0, tail, hcs, hlen, hall, htail, hmap.symm⟩
    · rintro ⟨core, tail, hcs, hlen, hall, htail, rfl⟩
      have hm : matchUploadId s.data = some core :=
        (matchUploadId_eq_some s.data core).mpr ⟨tail, hcs, hlen, hall, htail⟩
      rw [hm]
      rfl

theorem extractUploadHash_lower {s hash : String}
    (h : extractUploadHash s = some hash) :
    hash.data.length = 10 ∧ hash.data.all isLowerHexChar = true := by
  obtain ⟨core, tail, hcs, hlen, hall, htail, rfl⟩ :=
    (extractUploadHash_eq_some s hash).mp h
  have hdata : (String.mk (core.map Char.toLower)).data = core.map Char.toLower := rfl
  rw [hdata]
  constructor
  · rw [List.length_map]
    exact hlen
  · rw [List.all_eq_true] at hall ⊢
    intro c hc
    obtain ⟨c0, hc0, rfl⟩ := List.mem_map.mp hc
    exact isLowerHexChar_toLower (hall c0 hc0)

theorem cleanupLoop_subset (rf : String → Bool) :
    ∀ ids fs p, p ∈ (cleanupLoop rf ids fs).1 → p ∈ fs := by
  intro ids
  induction ids with
  | nil => intro fs p hp; exact hp
  | cons pid rest ih =>
    intro fs p hp
    cases hex : extractUploadHash pid with
    | none =>
      simp only [cleanupLoop, hex] at hp
      exact ih fs p hp
    | some hsh =>
      simp only [cleanupLoop, hex] at hp
      by_cases hmem : uploadPath hsh ∈ fs
      · rw [if_pos hmem] at hp
        by_cases hflt : rf (uploadPath hsh) = true
        · rw [if_pos hflt] at hp
          exact hp
        · rw [if_neg hflt] at hp
          exact (List.mem_filter.mp (ih _ p hp)).1
      · rw [if_neg hmem] at hp
        exact ih fs p hp

theorem cleanupLoop_no_fault (rf : String → Bool) (hrf : ∀ p, rf p = false) :
    ∀ ids fs pid hsh, pid ∈ ids → extractUploadHash pid = some hsh →
      uploadPath hsh ∉ (cleanupLoop rf ids fs).1 := by
  intro ids
  induction ids with
  | nil => intro fs pid hsh hmem _; exact absurd hmem (List.not_mem_nil pid)
  | cons q rest ih =>
    intro fs pid hsh hmem hex
    rcases List.mem_cons.mp hmem with rfl | hmem2
    · simp only [cleanupLoop, hex]
      by_cases hfs : uploadPath hsh ∈ fs
      · rw [if_pos hfs, hrf (uploadPath hsh)]
        simp only [Bool.false_eq_true, if_false]
        intro hcontra
        have hsub := cleanupLoop_subset rf rest _ _ hcontra
        have := (List.mem_filter.mp hsub).2
        simp at this
      · rw [if_neg hfs]
        intro hcontra
        exact hfs (cleanupLoop_subset rf rest fs _ hcontra)
    · cases hexq : extractUploadHash q with
      | none =>
        simp only [cleanupLoop, hexq]
        exact ih fs pid hsh hmem2 hex
      | some hq =>
        simp only [cleanupLoop, hexq]
        by_cases hfs : uploadPath hq ∈ fs
        · rw [if_pos hfs, hrf (uploadPath hq)]
          simp only [Bool.false_eq_true, if_false]
          exact ih _ pid hsh hmem2 hex
        · rw [if_neg hfs]
          exact ih fs pid hsh hmem2 hex

theorem cleanupLoop_removed (rf : String → Bool) :
    ∀ ids fs p, p ∈ fs → p ∉ (cleanupLoop rf ids fs).1 →
      ∃ pid hsh, pid ∈ ids ∧ extractUploadHash pid = some hsh ∧
        p = uploadPath hsh := by
  intro ids
  induction ids with
  | nil => intro fs p hin hout; exact absurd hin hout
  | cons q rest ih =>
    intro fs p hin hout
    cases hexq : extractUploadHash q with
    | none =>
      simp only [cleanupLoop, hexq] at hout
      obtain ⟨pid, hsh, hm, hx, hp⟩ := ih fs p hin hout
      exact ⟨pid, hsh, List.mem_cons_of_mem q hm, hx, hp⟩
    | some hq =>
      simp only [cleanupLoop, hexq] at hout
      by_cases hfs : uploadPath hq ∈ fs
      · rw [if_pos hfs] at hout
        by_cases hflt : rf (uploadPath hq) = true
        · rw [if_pos hflt] at hout
          exact absurd hin hout
        · rw [if_neg hflt] at hout
          by_cases hp : p = uploadPath hq
          · exact ⟨q, hq, List.mem_cons_self q rest, hexq, hp⟩
          · have hin2 : p ∈ fs.filter (fun x => x != uploadPath hq) := by
              rw [List.mem_filter]
              exact ⟨hin, by simpa using hp⟩
            obtain ⟨pid, hsh, hm, hx, hpe⟩ := ih _ p hin2 hout
            exact ⟨pid, hsh, List.mem_cons_of_mem q hm, hx, hpe⟩
      · rw [if_neg hfs] at hout
        obtain ⟨pid, hsh, hm, hx, hp⟩ := ih fs p hin hout
        exact ⟨pid, hsh, List.mem_cons_of_mem q hm, hx, hp⟩

/-- C6 counterexample: the identifier `upload_ABCDEF0123`, whose hash part
is uppercase rather than lowercase hexadecimal, is accepted by
`extract_upload_hash` (which lowercases the captured group); the claim as
stated says every string that is not `upload_` plus 10 lowercase hex
characters is rejected with `None`. -/
theorem upload_id_case_counterexample :
    extractUploadHash "upload_ABCDEF0123" = some "abcdef0123" := by decide

/-- C6 (amended): a string is accepted by `extract_upload_hash` exactly
when it is the literal prefix `upload_` followed by exactly 10 hexadecimal
characters of either case, optionally followed by one trailing newline (an
artifact of the `$` anchor); the returned hash is the captured group
lowercased, hence 10 lowercase hex characters; and cleanup only ever
removes paths of the form `uploads/<10 lowercase hex chars>.pdf`. -/
theorem upload_id_validation :
    (∀ s hash, extractUploadHash s = some hash ↔
      ∃ core tail, s.data = "upload_".data ++ core ++ tail ∧ core.length = 10 ∧
        core.all isHexChar = true ∧ (tail = [] ∨ tail = ['\n']) ∧
        hash = String.mk (core.map Char.toLower)) ∧
    (∀ s hash, extractUploadHash s = some hash →
      hash.data.length = 10 ∧ hash.data.all isLowerHexChar = true) ∧
    (∀ rf ids fs p, p ∈ fs → p ∉ (cleanupUploadedPdfs rf ids fs).1 →
      ∃ hsh : String, hsh.data.length = 10 ∧
        hsh.data.all isLowerHexChar = true ∧ p = uploadPath hsh) := by
  refine ⟨extractUploadHash_eq_some, fun s hash h => extractUploadHash_lower h, ?_⟩
  intro rf ids fs p hin hout
  obtain ⟨pid, hsh, _, hx, hp⟩ := cleanupLoop_removed rf ids fs p hin hout
  obtain ⟨hl, hlo⟩ := extractUploadHash_lower hx
  exact ⟨hsh, hl, hlo, hp⟩

theorem upload_id_validation_witness :
    ∃ core tail,
      ("upload_abcdef0123" : String).data = "upload_".data ++ core ++ tail ∧
      core.length = 10 ∧ core.all isHexChar = true ∧
      (tail = [] ∨ tail = ['\n']) ∧
      ("abcdef0123" : String) = String.mk (core.map Char.toLower) :=
  (upload_id_validation.1 "upload_abcdef0123" "abcdef0123").mp (by decide)

/-- C5 counterexample: with two well-formed upload identifiers whose files
both exist, a deletion error on the first file aborts the cleanup loop, so
the second file is never deleted even though its identifier is well-formed;
the claim as stated promises that every such file is deleted while deletion
errors are swallowed. -/
theorem cleanup_fault_counterexample :
    extractUploadHash "upload_1111111111" = some "1111111111" ∧
    uploadPath "1111111111" ∈
      (executeReviewGeneration
        ⟨fun _ => .ok [], fun _ => .ok [], fun _ _ => .ok "review",
         fun p => p == uploadPath "0000000000"⟩
        ⟨"t1", 1, .pending, none, none⟩
        ["upload_0000000000", "upload_1111111111"] "topic" 10
        [uploadPath "0000000000", uploadPath "1111111111"]).2 :=
  ⟨by decide, by decide⟩

/-- C5 (amended): when the requested identifiers resolve to zero papers the
task ends FAILED with the message "No papers found for the given IDs"; on
every run the `finally` cleanup executes and never raises to its caller;
and when no deletion error occurs, every uploaded-PDF file referenced by a
well-formed upload identifier in the original list is deleted.  A deletion
error is swallowed and logged but aborts the remaining deletions. -/
theorem review_failure_and_cleanup (env : PipelineEnv) (task : Task)
    (paperIds : List String) (topic : String) (maxPapers : Nat)
    (fs : List String) :
    ((if (paperIds.filter (fun pid => !(startsWithUpload pid))).isEmpty
        then (Except.ok [] : Except PyExc (List Paper))
        else env.arxivFetch
          (paperIds.filter (fun pid => !(startsWithUpload pid)))) = .ok [] →
     (if (paperIds.filter (fun pid => startsWithUpload pid)).isEmpty
        then (Except.ok [] : Except PyExc (List Paper))
        else env.uploadedFetch
          (paperIds.filter (fun pid => startsWithUpload pid))) = .ok [] →
      (executeReviewGeneration env task paperIds topic maxPapers fs).1.status =
        .failed ∧
      (executeReviewGeneration env task paperIds topic maxPapers fs).1.errorMessage =
        some "No papers found for the given IDs") ∧
    (∀ rf ids fs2, (cleanupUploadedPdfs rf ids fs2).2 = "completed") ∧
    ((∀ p, env.removeFault p = false) →
      ∀ pid, pid ∈ paperIds → ∀ hsh, extractUploadHash pid = some hsh →
        uploadPath hsh ∉
          (executeReviewGeneration env task paperIds topic maxPapers fs).2) := by
  refine ⟨?_, fun rf ids fs2 => rfl, ?_⟩
  · intro ha hu
    simp only [executeReviewGeneration, pipelineBody]
    rw [ha, hu]
    simp [PyExc.isExceptionClass, PyExc.message]
  · intro hrf pid hmem hsh hex
    have hfs : (executeReviewGeneration env task paperIds topic maxPapers fs).2 =
        (cleanupLoop env.removeFault paperIds fs).1 := rfl
    rw [hfs]
    exact cleanupLoop_no_fault env.removeFault hrf paperIds fs pid hsh hmem hex

theorem review_failure_and_cleanup_witness :
    (executeReviewGeneration
      ⟨fun _ => .ok [], fun _ => .ok [], fun _ _ => .ok "review",
       fun _ => false⟩
      ⟨"t1", 1, .pending, none, none⟩ ["upload_0000000000"] "topic" 10
      [uploadPath "0000000000"]).1.status = .failed ∧
    (executeReviewGeneration
      ⟨fun _ => .ok [], fun _ => .ok [], fun _ _ => .ok "review",
       fun _ => false⟩
      ⟨"t1", 1, .pending, none, none⟩ ["upload_0000000000"] "topic" 10
      [uploadPath "0000000000"]).1.errorMessage =
      some "No papers found for the given IDs" :=
  (review_failure_and_cleanup
    ⟨fun _ => .ok [], fun _ => .ok [], fun _ _ => .ok "review",
     fun _ => false⟩
    ⟨"t1", 1, .pending, none, none⟩ ["upload_0000000000"] "topic" 10
    [uploadPath "0000000000"]).1 rfl rfl

/-- C7: when the resolved papers number more than `max_papers` and review
generation succeeds on the truncated list, the task completes with a result
holding the review text, the input topic, and citations for exactly
`min n max_papers` papers, each with its publication datetime rendered by
`isoformat`. -/
theorem review_success_truncation (env : PipelineEnv) (task : Task)
    (paperIds : List String) (topic : String) (maxPapers : Nat)
    (fs : List String) (papersA papersU : List Paper) (review : String)
    (ha : (if (paperIds.filter (fun pid => !(startsWithUpload pid))).isEmpty
        then (Except.ok [] : Except PyExc (List Paper))
        else env.arxivFetch
          (paperIds.filter (fun pid => !(startsWithUpload pid)))) = .ok papersA)
    (hu : (if (paperIds.filter (fun pid => startsWithUpload pid)).isEmpty
        then (Except.ok [] : Except PyExc (List Paper))
        else env.uploadedFetch
          (paperIds.filter (fun pid => startsWithUpload pid))) = .ok papersU)
    (hn : maxPapers < (papersA ++ papersU).length)
    (hg : env.generateReview ((papersA ++ papersU).take maxPapers) topic =
      .ok review) :
    (executeReviewGeneration env task paperIds topic maxPapers fs).1.status =
      .completed ∧
    (executeReviewGeneration env task paperIds topic maxPapers fs).1.resultData =
      some { review := review
             citations := ((papersA ++ papersU).take maxPapers).map serializeCitation
             topic := topic } ∧
    (((papersA ++ papersU).take maxPapers).map serializeCitation).length =
      min (papersA ++ papersU).length maxPapers ∧
    (∀ c, c ∈ ((papersA ++ papersU).take maxPapers).map serializeCitation →
      ∃ p, p ∈ (papersA ++ papersU).take maxPapers ∧
        c.2.2 = p.published.isoformat) := by
  have hne : (papersA ++ papersU).isEmpty = false := by
    cases hpp : papersA ++ papersU with
    | nil => rw [hpp] at hn; simp at hn
    | cons q l => rfl
  have hn2 : maxPapers < papersA.length + papersU.length := by
    simpa using hn
  refine ⟨?_, ?_, ?_, ?_⟩
  · simp only [executeReviewGeneration, pipelineBody]
    rw [ha, hu]
    simp [hne, hn2, hg]
  · simp only [executeReviewGeneration, pipelineBody]
    rw [ha, hu]
    simp [hne, hn2, hg]
  · rw [List.length_map, List.length_take]
    exact Nat.min_comm maxPapers (papersA ++ papersU).length
  · intro c hc
    obtain ⟨p, hp, rfl⟩ := List.mem_map.mp hc
    exact ⟨p, hp, rfl⟩

theorem review_success_truncation_witness :
    (executeReviewGeneration
      ⟨fun _ => .ok
          [⟨"2301.00001", "Paper One", ["Author A"], "summary one",
            ⟨2023, 1, 2, 3, 4, 5⟩, "url1"⟩,
           ⟨"2301.00002", "Paper Two", ["Author B"], "summary two",
            ⟨2023, 6, 7, 8, 9, 10⟩, "url2"⟩],
       fun _ => .ok [], fun _ _ => .ok "the review", fun _ => false⟩
      ⟨"t1", 1, .pending, none, none⟩ ["2301.00001"] "topic" 1 []).1.status =
      .completed :=
  (review_success_truncation
    ⟨fun _ => .ok
        [⟨"2301.00001", "Paper One", ["Author A"], "summary one",
          ⟨2023, 1, 2, 3, 4, 5⟩, "url1"⟩,
         ⟨"2301.00002", "Paper Two", ["Author B"], "summary two",
          ⟨2023, 6, 7, 8, 9, 10⟩, "url2"⟩],
     fun _ => .ok [], fun _ _ => .ok "the review", fun _ => false⟩
    ⟨"t1", 1, .pending, none, none⟩ ["2301.00001"] "topic" 1 []
    [⟨"2301.00001", "Paper One", ["Author A"], "summary one",
      ⟨2023, 1, 2, 3, 4, 5⟩, "url1"⟩,
     ⟨"2301.00002", "Paper Two", ["Author B"], "summary two",
      ⟨2023, 6, 7, 8, 9, 10⟩, "url2"⟩]
    [] "the review" rfl rfl (by decide) rfl).1

theorem task_status_lifecycle_witness :
    statusReach trackerInit.status TaskStatus.running ∧
    (trackerInit.status.isTerminal = true →
      TaskStatus.running = trackerInit.status) :=
  task_status_lifecycle trackerInit ⟨.running, .atFetch, false⟩
    Relation.ReflTransGen.refl
    (Relation.ReflTransGen.single (TrackerStep.jobStart .pending))

end LitXplore
